import Mathlib

/-!
Verification development for the SWF/AMF3 binary decoding core of the
repository (scripts/config_sources/_swf_handle.py).

Byte strings are modelled as `List Nat`, where every element of a genuine
Python `bytes` value is below 256 (theorems that need this carry an explicit
hypothesis).  Bitwise operations of the source on such bytes are translated
arithmetically: `x & 0x7F` is `x % 128`, `x >> 7` is `x / 128`, `x << 7` is
`x * 128`, a bit test `(x & 0x80) == 0` is `x / 128 % 2 = 0`, and the
bitwise or of disjoint parts is written `+`.  Python code that can raise is
modelled with `Option`, with `none` standing for a raised exception; the
`try/except` blocks of the source become matches on `none`.
-/

namespace Swf

/-- Python dict insertion semantics: if the key is already present its value
is updated in place (keeping its position), otherwise the pair is appended. -/
def assocInsert {α β : Type} [DecidableEq α] : List (α × β) → α → β → List (α × β)
  | [], k, v => [(k, v)]
  | (k0, v0) :: t, k, v =>
    if k0 = k then (k0, v) :: t else (k0, v0) :: assocInsert t k v

/-- `AMF3Reader.read_u29`: AMF3 variable-length 29-bit unsigned integer.
The `for i in range(4)` loop of the source is statically bounded and is
unrolled here; iteration `i == 3` takes the whole byte, the other
iterations take 7 payload bits and stop when the continuation bit is
clear.  Reading a byte from an exhausted stream raises in the source
(struct.error), hence `none`. -/
def read_u29 : List Nat → Option (Nat × List Nat)
  | [] => none
  | b0 :: r0 =>
    let res0 := b0 % 128
    if b0 / 128 % 2 = 0 then some (res0, r0)
    else
      match r0 with
      | [] => none
      | b1 :: r1 =>
        let res1 := res0 * 128 + b1 % 128
        if b1 / 128 % 2 = 0 then some (res1, r1)
        else
          match r1 with
          | [] => none
          | b2 :: r2 =>
            let res2 := res1 * 128 + b2 % 128
            if b2 / 128 % 2 = 0 then some (res2, r2)
            else
              match r2 with
              | [] => none
              | b3 :: r3 => some (res2 * 256 + b3, r3)

/-- Modelled from the spec: the U29 encoding, 1 to 4 bytes, big-endian groups
of 7 payload bits with a continuation bit in the high bit of each of the
first 3 bytes; the 4th byte (if reached) contributes all 8 bits.  The
repository contains no encoder; this definition follows the wording of the
specification and is used to state the round-trip properties. -/
def encode_u29 (n : Nat) : List Nat :=
  if n < 0x80 then [n]
  else if n < 0x4000 then [0x80 + n / 0x80, n % 0x80]
  else if n < 0x200000 then
    [0x80 + n / 0x4000, 0x80 + n / 0x80 % 0x80, n % 0x80]
  else
    [0x80 + n / 0x400000, 0x80 + n / 0x8000 % 0x80, 0x80 + n / 0x100 % 0x80,
     n % 0x100]

/-- `AMF3Reader.read_integer`: read a U29 and reinterpret values above
0x0FFFFFFF as negative via two's complement over 29 bits. -/
def read_integer (data : List Nat) : Option (Int × List Nat) :=
  (read_u29 data).map fun p =>
    (if 0x0FFFFFFF < p.1 then (p.1 : Int) - 0x20000000 else (p.1 : Int), p.2)

/-- Modelled from the spec: an AMF3 signed integer is encoded as the U29
encoding of its two's-complement residue modulo 2^29. -/
def encode_amf3_integer (i : Int) : List Nat :=
  encode_u29 (i % 0x20000000).toNat

/-! ### Python text decoding

`bytes.decode("utf-8")` with a `bytes.decode("latin-1", errors="replace")`
fallback, as used by `read_string`, `read_xml` and `read_export_asset_name`.
The strict UTF-8 decoder rejects continuation-byte errors, overlong forms,
surrogates and code points above U+10FFFF, exactly the inputs on which the
Python UTF-8 decoder raises; latin-1 maps every byte `b` to the code point
`b` and never fails (so the `errors="replace"` never actually fires).
-/

mutual

/-- Strict UTF-8 decoding of a byte list; `none` models UnicodeDecodeError. -/
def utf8Decode : List Nat → Option (List Char)
  | [] => some []
  | b :: rest =>
    if b < 0x80 then (utf8Decode rest).map fun cs => Char.ofNat b :: cs
    else if b < 0xC2 then none
    else if b < 0xE0 then utf8Tail2 b rest
    else if b < 0xF0 then utf8Tail3 b rest
    else if b < 0xF5 then utf8Tail4 b rest
    else none

/-- Continuation of a 2-byte UTF-8 sequence with lead byte `b`. -/
def utf8Tail2 (b : Nat) : List Nat → Option (List Char)
  | c1 :: r =>
    if 0x80 ≤ c1 ∧ c1 < 0xC0 then
      (utf8Decode r).map fun cs =>
        Char.ofNat ((b - 0xC0) * 0x40 + (c1 - 0x80)) :: cs
    else none
  | [] => none

/-- Continuation of a 3-byte UTF-8 sequence with lead byte `b` (the lead
byte narrows the first continuation range, excluding overlong forms and
surrogates). -/
def utf8Tail3 (b : Nat) : List Nat → Option (List Char)
  | c1 :: c2 :: r =>
    if ((if b = 0xE0 then 0xA0 else 0x80) ≤ c1 ∧
        c1 < (if b = 0xED then 0xA0 else 0xC0)) ∧
        (0x80 ≤ c2 ∧ c2 < 0xC0) then
      (utf8Decode r).map fun cs =>
        Char.ofNat ((b - 0xE0) * 0x1000 + (c1 - 0x80) * 0x40 + (c2 - 0x80)) :: cs
    else none
  | _ => none

/-- Continuation of a 4-byte UTF-8 sequence with lead byte `b`. -/
def utf8Tail4 (b : Nat) : List Nat → Option (List Char)
  | c1 :: c2 :: c3 :: r =>
    if ((if b = 0xF0 then 0x90 else 0x80) ≤ c1 ∧
        c1 < (if b = 0xF4 then 0x90 else 0xC0)) ∧
        (0x80 ≤ c2 ∧ c2 < 0xC0) ∧ (0x80 ≤ c3 ∧ c3 < 0xC0) then
      (utf8Decode r).map fun cs =>
        Char.ofNat ((b - 0xF0) * 0x40000 + (c1 - 0x80) * 0x1000 +
          (c2 - 0x80) * 0x40 + (c3 - 0x80)) :: cs
    else none
  | _ => none

end

/-- `string_bytes.decode("utf-8")` falling back to
`string_bytes.decode("latin-1", errors="replace")`. -/
def pyDecodeBytes (bs : List Nat) : String :=
  match utf8Decode bs with
  | some cs => String.mk cs
  | none => String.mk (bs.map Char.ofNat)

/-! ### AMF3 value decoder -/

/-- AMF3 type marker constants of the source. -/
def AMF3_UNDEFINED : Nat := 0x00
def AMF3_NULL : Nat := 0x01
def AMF3_FALSE : Nat := 0x02
def AMF3_TRUE : Nat := 0x03
def AMF3_INTEGER : Nat := 0x04
def AMF3_DOUBLE : Nat := 0x05
def AMF3_STRING : Nat := 0x06
def AMF3_XML_DOC : Nat := 0x07
def AMF3_DATE : Nat := 0x08
def AMF3_ARRAY : Nat := 0x09
def AMF3_OBJECT : Nat := 0x0A
def AMF3_XML : Nat := 0x0B
def AMF3_BYTE_ARRAY : Nat := 0x0C

/-- The Python values produced by the decoder.  `none`/undefined both decode
to Python `None`, modelled as `Value.null`.  A `double` keeps its raw 8-byte
big-endian payload (the decoder never computes with it), and a `date` keeps
the raw 8 payload bytes of its milliseconds-since-epoch double: the
conversion to a platform `datetime` is outside this embedding. -/
inductive Value where
  | null : Value
  | bool : Bool → Value
  | int : Int → Value
  | double : List Nat → Value
  | str : String → Value
  | date : List Nat → Value
  | arr : List Value → Value
  | dict : List (String × Value) → Value
  | bytes : List Nat → Value

/-- An AMF3 class-trait definition (`class_def` dict of the source). -/
structure ClassDef where
  className : String
  dynamic : Bool
  properties : List String

/-- The mutable state of an `AMF3Reader`: the remaining stream and the three
reference tables. -/
structure RState where
  stream : List Nat
  stringTable : List String
  objectTable : List Value
  classTable : List ClassDef

/-- Fresh reader state over a buffer (`AMF3Reader.__init__`). -/
def RState.init (data : List Nat) : RState := ⟨data, [], [], []⟩

/-- Read `n` bytes from the stream, failing (as the callers of
`stream.read(n)` that check the returned length do) when fewer remain. -/
def readBytes (n : Nat) (st : RState) : Option (List Nat × RState) :=
  if st.stream.length < n then none
  else some (st.stream.take n, { st with stream := st.stream.drop n })

/-- `read_u29` acting on the reader state. -/
def read_u29_st (st : RState) : Option (Nat × RState) :=
  (read_u29 st.stream).map fun p => (p.1, { st with stream := p.2 })

/-- `AMF3Reader.read_string`. -/
def read_string (st : RState) : Option (String × RState) :=
  match read_u29_st st with
  | none => none
  | some (u29, st1) =>
    if u29 % 2 = 0 then
      let ref := u29 / 2
      if h : ref < st1.stringTable.length then
        some (st1.stringTable.get ⟨ref, h⟩, st1)
      else none
    else
      let length := u29 / 2
      if length = 0 then some ("", st1)
      else
        match readBytes length st1 with
        | none => none
        | some (sb, st2) =>
          let s := pyDecodeBytes sb
          some (s, { st2 with
            stringTable :=
              if s ≠ "" then st2.stringTable ++ [s] else st2.stringTable })

/-- `AMF3Reader.read_integer` acting on the reader state. -/
def read_integer_st (st : RState) : Option (Int × RState) :=
  (read_integer st.stream).map fun p => (p.1, { st with stream := p.2 })

/-- `AMF3Reader.read_double`: 8 raw big-endian IEEE-754 bytes; the bit
pattern is kept unconverted. -/
def read_double (st : RState) : Option (List Nat × RState) := readBytes 8 st

/-- Replace the last element of a list (`self.object_table[-1] = x`; the
callers only reach this with a non-empty table). -/
def setLast (l : List Value) (v : Value) : List Value := l.dropLast ++ [v]

/-- `AMF3Reader.read_xml` (used for both XML markers). -/
def read_xml (st : RState) : Option (Value × RState) :=
  match read_u29_st st with
  | none => none
  | some (u29, st1) =>
    if u29 % 2 = 0 then
      let ref := u29 / 2
      if h : ref < st1.objectTable.length then
        some (st1.objectTable.get ⟨ref, h⟩, st1)
      else none
    else
      let length := u29 / 2
      match readBytes length st1 with
      | none => none
      | some (xb, st2) =>
        let s := pyDecodeBytes xb
        some (Value.str s, { st2 with objectTable := st2.objectTable ++ [Value.str s] })

/-- `AMF3Reader.read_date`.  The inline payload is one 8-byte double of
milliseconds since the epoch; its conversion through
`datetime.fromtimestamp` (with the epoch substituted on ValueError/OSError)
is platform behaviour outside this embedding, so the raw payload bytes are
kept as the date value.  The stream and table effects are exactly those of
the source. -/
def read_date (st : RState) : Option (Value × RState) :=
  match read_u29_st st with
  | none => none
  | some (u29, st1) =>
    if u29 % 2 = 0 then
      let ref := u29 / 2
      if h : ref < st1.objectTable.length then
        some (st1.objectTable.get ⟨ref, h⟩, st1)
      else none
    else
      match read_double st1 with
      | none => none
      | some (bits, st2) =>
        some (Value.date bits, { st2 with objectTable := st2.objectTable ++ [Value.date bits] })

/-- `AMF3Reader.read_byte_array`. -/
def read_byte_array (st : RState) : Option (Value × RState) :=
  match read_u29_st st with
  | none => none
  | some (u29, st1) =>
    if u29 % 2 = 0 then
      let ref := u29 / 2
      if h : ref < st1.objectTable.length then
        some (st1.objectTable.get ⟨ref, h⟩, st1)
      else none
    else
      let length := u29 / 2
      match readBytes length st1 with
      | none => none
      | some (bd, st2) =>
        some (Value.bytes bd, { st2 with objectTable := st2.objectTable ++ [Value.bytes bd] })

/-- Property-name loop of `read_generic_object`
(`for _ in range(property_count): properties.append(self.read_string())`). -/
def readPropNames : Nat → RState → Option (List String × RState)
  | 0, st => some ([], st)
  | n + 1, st =>
    match read_string st with
    | none => none
    | some (s, st1) =>
      (readPropNames n st1).map fun p => (s :: p.1, p.2)

/-- The in-progress representation of an AMF3 array: a Python list until the
first associative key is seen, a Python dict afterwards. -/
def PyArr : Type := List Value ⊕ List (String × Value)

/-- `dict_array = {str(i): item for i, item in enumerate(array)}`. -/
def listToDict (l : List Value) : List (String × Value) :=
  l.enum.map fun p => (toString p.1, p.2)

/-!
The recursive part of the reader.  Python recursion over the stream is
modelled with an explicit fuel argument: every function consumes fuel on
entry and hands `fuel` to each callee, so the recursion is structural.
Since every iteration of every loop below consumes at least one stream
byte, a fuel of `stream length + 1` can never be exhausted on a decode that
the source completes.

One caveat on reference-table aliasing: the source appends a *mutable*
placeholder (`array`/`obj`) to `object_table` before filling it, so a
back-reference into a value under construction observes an alias.  This
embedding stores snapshots instead; the stream consumption and all three
tables evolve exactly as in the source (decoded values are only stored,
never re-inspected by the parser).
-/

mutual

/-- `AMF3Reader.read_object`: dispatch on the single leading type marker. -/
def read_object : Nat → RState → Option (Value × RState)
  | 0, _ => none
  | fuel + 1, st =>
    match st.stream with
    | [] => none
    | marker :: s =>
      let st1 : RState := { st with stream := s }
      if marker = AMF3_UNDEFINED then some (Value.null, st1)
      else if marker = AMF3_NULL then some (Value.null, st1)
      else if marker = AMF3_FALSE then some (Value.bool false, st1)
      else if marker = AMF3_TRUE then some (Value.bool true, st1)
      else if marker = AMF3_INTEGER then
        (read_integer_st st1).map fun p => (Value.int p.1, p.2)
      else if marker = AMF3_DOUBLE then
        (read_double st1).map fun p => (Value.double p.1, p.2)
      else if marker = AMF3_STRING then
        (read_string st1).map fun p => (Value.str p.1, p.2)
      else if marker = AMF3_XML_DOC ∨ marker = AMF3_XML then read_xml st1
      else if marker = AMF3_DATE then read_date st1
      else if marker = AMF3_ARRAY then read_array fuel st1
      else if marker = AMF3_OBJECT then read_generic_object fuel st1
      else if marker = AMF3_BYTE_ARRAY then read_byte_array st1
      else none

/-- `AMF3Reader.read_array` (after its marker byte): reference form, or
inline with a placeholder registered first, then the associative section,
then `length` dense values. -/
def read_array : Nat → RState → Option (Value × RState)
  | 0, _ => none
  | fuel + 1, st =>
    match read_u29_st st with
    | none => none
    | some (u29, st1) =>
      if u29 % 2 = 0 then
        let ref := u29 / 2
        if h : ref < st1.objectTable.length then
          some (st1.objectTable.get ⟨ref, h⟩, st1)
        else none
      else
        let st2 := { st1 with objectTable := st1.objectTable ++ [Value.arr []] }
        let length := u29 / 2
        match read_assoc fuel st2 (Sum.inl []) with
        | none => none
        | some (arr1, st3) =>
          match read_dense fuel 0 length st3 arr1 with
          | none => none
          | some (arr2, st4) =>
            some (match arr2 with
              | Sum.inl l => Value.arr l
              | Sum.inr d => Value.dict d, st4)

/-- The `while True` associative-section loop of `read_array`.  Note the
faithful translation of the source indentation: `array[key] = value` is
executed only inside the list-to-dict conversion branch, so once the
representation is a dict, later keys are read and their values consumed
but never stored. -/
def read_assoc : Nat → RState → PyArr → Option (PyArr × RState)
  | 0, _, _ => none
  | fuel + 1, st, arr =>
    match read_string st with
    | none => none
    | some (key, st1) =>
      if key = "" then some (arr, st1)
      else
        match read_object fuel st1 with
        | none => none
        | some (value, st2) =>
          match arr with
          | Sum.inl l =>
            let d1 := assocInsert (listToDict l) key value
            let st3 :=
              { st2 with objectTable := setLast st2.objectTable (Value.dict d1) }
            read_assoc fuel st3 (Sum.inr d1)
          | Sum.inr d => read_assoc fuel st2 (Sum.inr d)

/-- The dense-section loop of `read_array` (`for i in range(length)`); `i`
is the running index used for stringified dict keys. -/
def read_dense : Nat → Nat → Nat → RState → PyArr → Option (PyArr × RState)
  | 0, _, _, _, _ => none
  | _ + 1, _, 0, st, arr => some (arr, st)
  | fuel + 1, i, count + 1, st, arr =>
    match read_object fuel st with
    | none => none
    | some (v, st1) =>
      match arr with
      | Sum.inl l => read_dense fuel (i + 1) count st1 (Sum.inl (l ++ [v]))
      | Sum.inr d =>
        read_dense fuel (i + 1) count st1 (Sum.inr (assocInsert d (toString i) v))

/-- `AMF3Reader.read_generic_object` (after its marker byte). -/
def read_generic_object : Nat → RState → Option (Value × RState)
  | 0, _ => none
  | fuel + 1, st =>
    match read_u29_st st with
    | none => none
    | some (u29, st1) =>
      if u29 % 2 = 0 then
        let ref := u29 / 2
        if h : ref < st1.objectTable.length then
          some (st1.objectTable.get ⟨ref, h⟩, st1)
        else none
      else
        let st2 := { st1 with objectTable := st1.objectTable ++ [Value.dict []] }
        if u29 / 2 % 2 = 0 then
          let classRef := u29 / 4
          if h : classRef < st2.classTable.length then
            read_traits fuel (st2.classTable.get ⟨classRef, h⟩) st2
          else none
        else
          match read_string st2 with
          | none => none
          | some (className, st3) =>
            if u29 / 4 % 2 = 1 then none
            else
              let propertyCount := u29 / 16
              match readPropNames propertyCount st3 with
              | none => none
              | some (props, st4) =>
                let classDef : ClassDef := ⟨className, u29 / 8 % 2 = 1, props⟩
                let st5 := { st4 with classTable := st4.classTable ++ [classDef] }
                read_traits fuel classDef st5

/-- The tail of `read_generic_object` once the class definition is known:
class-name tag, sealed properties in declared order, then the dynamic
section. -/
def read_traits : Nat → ClassDef → RState → Option (Value × RState)
  | 0, _, _ => none
  | fuel + 1, cd, st =>
    let obj : List (String × Value) :=
      if cd.className ≠ "" then [("__class__", Value.str cd.className)] else []
    match read_props fuel cd.properties st obj with
    | none => none
    | some (obj1, st1) =>
      if cd.dynamic then
        match read_dyn fuel st1 obj1 with
        | none => none
        | some (obj2, st2) => some (Value.dict obj2, st2)
      else some (Value.dict obj1, st1)

/-- Sealed-property loop of `read_generic_object`. -/
def read_props : Nat → List String → RState → List (String × Value) →
    Option (List (String × Value) × RState)
  | 0, _, _, _ => none
  | _ + 1, [], st, obj => some (obj, st)
  | fuel + 1, p :: ps, st, obj =>
    match read_object fuel st with
    | none => none
    | some (v, st1) => read_props fuel ps st1 (assocInsert obj p v)

/-- Dynamic-property loop of `read_generic_object`. -/
def read_dyn : Nat → RState → List (String × Value) →
    Option (List (String × Value) × RState)
  | 0, _, _ => none
  | fuel + 1, st, obj =>
    match read_string st with
    | none => none
    | some (key, st1) =>
      if key = "" then some (obj, st1)
      else
        match read_object fuel st1 with
        | none => none
        | some (v, st2) => read_dyn fuel st2 (assocInsert obj key v)

end

/-- One whole decode: `AMF3Reader(data).read_object()`.  The initial fuel
`data.length + 1` cannot be exhausted because every fueled step consumes at
least one stream byte. -/
def read_amf3 (data : List Nat) : Option Value :=
  (read_object (data.length + 1) (RState.init data)).map fun p => p.1

/-- `read_amf3_object`: direct decode; on any error, inflate and decode
only when the first two bytes equal the zlib best-compression marker
`78 DA`; on any further error return the raw input.  The zlib inflate
routine is an external library and is passed as a function parameter
(`none` models `zlib.error`). -/
def read_amf3_object (inflate : List Nat → Option (List Nat))
    (data : List Nat) : Value :=
  match read_amf3 data with
  | some v => v
  | none =>
    match (if data.take 2 = [0x78, 0xDA] then (inflate data).bind read_amf3
           else none) with
    | some v => v
    | none => Value.bytes data

/-- The per-blob fallback chain exactly as the claim words it (raw decode,
then unconditional inflate-then-decode, then raw bytes passthrough), stated
as a second definition for comparison with `read_amf3_object`. -/
def read_amf3_object_claimed (inflate : List Nat → Option (List Nat))
    (data : List Nat) : Value :=
  match read_amf3 data with
  | some v => v
  | none =>
    match (inflate data).bind read_amf3 with
    | some v => v
    | none => Value.bytes data

/-! ### SWF container decoding -/

/-- The decoded RECT dict of `parse_rect` (coordinates plus the derived
width and height). -/
structure Rect where
  xmin : Int
  xmax : Int
  ymin : Int
  ymax : Int
  width : Int
  height : Int
deriving DecidableEq

/-- `parse_rect`: the empty dict returned on truncation is modelled as
`none`.  Masks and shifts are arithmetic as explained in the header; the
sign test `value & (1 << (nbits - 1))` is the bit test
`value / 2 ^ (nbits - 1) % 2 = 1`. -/
def parse_rect (data : List Nat) (offset : Nat) : Option Rect × Nat :=
  if data.length ≤ offset then (none, offset)
  else
    let firstByte := data.getD offset 0
    let nbits := firstByte / 8
    if nbits = 0 then (some ⟨0, 0, 0, 0, 0, 0⟩, offset + 1)
    else
      let totalBits := 5 + 4 * nbits
      let totalBytes := (totalBits + 7) / 8
      if data.length < offset + totalBytes then (none, offset)
      else
        let bitData := (List.range totalBytes).foldl
          (fun acc i =>
            if offset + i < data.length then acc * 256 + data.getD (offset + i) 0
            else acc) 0
        let bitData := bitData % 2 ^ (totalBits - 5)
        let coord := fun (i : Nat) =>
          let value := bitData / 2 ^ ((3 - i) * nbits) % 2 ^ nbits
          if value / 2 ^ (nbits - 1) % 2 = 1 then (value : Int) - 2 ^ nbits
          else (value : Int)
        let xmin := coord 0
        let xmax := coord 1
        let ymin := coord 2
        let ymax := coord 3
        (some ⟨xmin, xmax, ymin, ymax, xmax - xmin, ymax - ymin⟩,
          offset + totalBytes)

/-- Modelled from the spec: bit `j` (most significant first) of the packed
bounding-box area that starts at byte `offset`. -/
def rectBitAt (data : List Nat) (offset j : Nat) : Nat :=
  data.getD (offset + j / 8) 0 / 2 ^ (7 - j % 8) % 2

/-- Modelled from the spec: coordinate `k` of a packed bounding box is
sign-extended from the `nbits`-wide two's-complement field occupying bits
`5 + k * nbits` to `5 + (k + 1) * nbits - 1` of the packed bit sequence,
most significant bit first. -/
def rectFieldSpec (data : List Nat) (offset nbits k : Nat) : Int :=
  let raw := (List.range nbits).foldl
    (fun acc j => acc * 2 + rectBitAt data offset (5 + k * nbits + j)) 0
  if 0 < nbits ∧ 2 ^ (nbits - 1) ≤ raw then (raw : Int) - 2 ^ nbits
  else (raw : Int)

/-- `bytes.decode("ascii")`: fails when any byte is 128 or above. -/
def asciiDecode (bs : List Nat) : Option String :=
  if bs.all fun b => b < 128 then some (String.mk (bs.map Char.ofNat))
  else none

/-- The header dict built by `parse_swf_header`; the frame-rate and
frame-count fields are absent when fewer than 4 bytes follow the bounding
box.  `frame_rate_raw` keeps the raw 16-bit fixed-point value (the source
divides it by 256.0, which only repackages it as a float). -/
structure SwfHeader where
  signature : String
  version : Nat
  fileSize : Nat
  compressed : Bool
  stageSize : Option Rect
  frameRateRaw : Option Nat
  frameCount : Option Nat
  headerSize : Nat

/-- `parse_swf_header`. -/
def parse_swf_header (data : List Nat) : Option SwfHeader :=
  if data.length < 8 then none
  else
    match asciiDecode (data.take 3) with
    | none => none
    | some sig =>
      let version := data.getD 3 0
      let fileSize := data.getD 4 0 + 256 * data.getD 5 0 +
        65536 * data.getD 6 0 + 16777216 * data.getD 7 0
      let r := parse_rect data 8
      if r.2 + 4 ≤ data.length then
        some ⟨sig, version, fileSize, sig = "CWS", r.1,
          some (data.getD r.2 0 + 256 * data.getD (r.2 + 1) 0),
          some (data.getD (r.2 + 2) 0 + 256 * data.getD (r.2 + 3) 0),
          r.2 + 4⟩
      else
        some ⟨sig, version, fileSize, sig = "CWS", r.1, none, none, r.2⟩

/-- `decompress_swf`: zlib inflation of the body of a CWS file is external
library behaviour and is passed in as `inflate` (with `none` modelling
`zlib.error`). -/
def decompress_swf (inflate : List Nat → Option (List Nat))
    (data : List Nat) : Option (List Nat × SwfHeader) :=
  if data.length < 8 then none
  else
    match asciiDecode (data.take 3) with
    | none => none
    | some sig =>
      if sig = "CWS" then
        match inflate (data.drop 8) with
        | none => none
        | some dec =>
          let newData := [0x46, 0x57, 0x53] ++ (data.drop 3).take 5 ++ dec
          (parse_swf_header newData).map fun h => (newData, h)
      else (parse_swf_header data).map fun h => (data, h)

/-- The long-format continuation of a tag header: the 4-byte little-endian
extended length, clamped to the remaining buffer; `none` models the `break`
on a buffer too short for the extended length field. -/
def readTagLong (tagType : Nat) : List Nat → Option (Nat × List Nat × List Nat)
  | l0 :: l1 :: l2 :: l3 :: rest2 =>
    let extLength := l0 + 256 * l1 + 65536 * l2 + 16777216 * l3
    let clamped := min extLength rest2.length
    some (tagType, rest2.take clamped, rest2.drop clamped)
  | _ => none

/-- One iteration of the tag loop of `extract_swf_data`: the 2-byte
little-endian tag header splits 6/6 into type and short length; short
length `0x3F` defers to the 4-byte extended length; a declared length
beyond the remaining buffer is clamped.  `none` models the `break` on a
buffer too short for the header. -/
def readTag : List Nat → Option (Nat × List Nat × List Nat)
  | b0 :: b1 :: rest =>
    let tagHeader := b0 + 256 * b1
    let tagType := tagHeader / 64
    let tagLength := tagHeader % 64
    if tagLength = 0x3F then readTagLong tagType rest
    else
      let clamped := min tagLength rest.length
      some (tagType, rest.take clamped, rest.drop clamped)
  | _ => none

/-- `result[tag_type].append(tag_data)` with
`if tag_type not in result: result[tag_type] = []`. -/
def tagAppend : List (Nat × List (List Nat)) → Nat → List Nat →
    List (Nat × List (List Nat))
  | [], ty, p => [(ty, [p])]
  | (t, ps) :: rest, ty, p =>
    if t = ty then (t, ps ++ [p]) :: rest else (t, ps) :: tagAppend rest ty p

/-- The `while` loop of `extract_swf_data`, faithful to the order of its
checks: a zero-length payload is skipped *before* the end-tag test, and
only then does a type-0 tag stop the iteration.  Fuel is structural; each
iteration consumes at least two stream bytes, so `length + 1` fuel is never
exhausted. -/
def tagLoop : Nat → List Nat → List (Nat × List (List Nat)) →
    List (Nat × List (List Nat))
  | 0, _, result => result
  | fuel + 1, s, result =>
    match readTag s with
    | none => result
    | some (ty, payload, rest) =>
      if payload = [] then tagLoop fuel rest result
      else if ty = 0 then result
      else tagLoop fuel rest (tagAppend result ty payload)

/-- `extract_swf_data`. -/
def extract_swf_data (inflate : List Nat → Option (List Nat))
    (swf : List Nat) : Option (List (Nat × List (List Nat))) :=
  (decompress_swf inflate swf).map fun p =>
    let s := p.1.drop p.2.headerSize
    tagLoop (s.length + 1) s []

/-! ### ExportAssets parsing -/

/-- The null-terminated-name scan of `read_export_asset_name`: collected
bytes and the remaining stream (the terminator, when present, is
consumed). -/
def collectName : List Nat → List Nat × List Nat
  | [] => ([], [])
  | b :: rest =>
    if b = 0 then ([], rest)
    else
      let p := collectName rest
      (b :: p.1, p.2)

/-- The `for _ in range(count)` loop of `read_export_asset_name`: the
source breaks out of the loop when fewer than 2 bytes remain for the
character id (the first two arms below); a decoded empty symbol name is
not inserted. -/
def exportEntriesGo : Nat → List Nat → List (Nat × String) →
    List (Nat × String)
  | 0, _, acc => acc
  | _ + 1, [], acc => acc
  | _ + 1, [_], acc => acc
  | n + 1, c0 :: c1 :: rest, acc =>
    let charId := c0 + 256 * c1
    let p := collectName rest
    let symbolName := pyDecodeBytes p.1
    exportEntriesGo n p.2
      (if symbolName ≠ "" then assocInsert acc charId symbolName else acc)

/-- `read_export_asset_name`: a 2-byte little-endian count then `count`
repetitions of a 2-byte character id and a null-terminated name.  A
`struct.error` while reading the count is caught by the source and yields
the (empty) result collected so far. -/
def read_export_asset_name : List Nat → List (Nat × String)
  | [] => []
  | [_] => []
  | b0 :: b1 :: rest => exportEntriesGo (b0 + 256 * b1) rest []

/-- All strings in a string table are non-empty (the StringTable invariant
of the spec). -/
def StrInv (T : List String) : Prop := ∀ s ∈ T, s ≠ ""

/-- A genuine zlib stream: header `78 01`, one stored (uncompressed) deflate
block of length 1 carrying the byte `01`, then the Adler-32 checksum
`00 02 00 02` of that byte.  `zlib.decompress` of these bytes yields
`b"\x01"`.  Its first two bytes are not the `78 DA` marker that
`read_amf3_object` tests for. -/
def zlibStored : List Nat :=
  [0x78, 0x01, 0x01, 0x01, 0x00, 0xFE, 0xFF, 0x01, 0x00, 0x02, 0x00, 0x02]

/-- The behaviour of `zlib.decompress` on `zlibStored` (it inflates to the
single byte `01`); other inputs are declined, which only makes this model
more conservative where it does not matter. -/
def inflateStored (bs : List Nat) : Option (List Nat) :=
  if bs = zlibStored then some [0x01] else none

/-! ## Theorems -/

/-! ### U29 round trip and range -/

theorem read_u29_encode_append (n : Nat) (h : n < 2 ^ 29) (rest : List Nat) :
    read_u29 (encode_u29 n ++ rest) = some (n, rest) := by
  unfold encode_u29
  by_cases h1 : n < 0x80
  · rw [if_pos h1]
    simp only [List.cons_append, List.nil_append, read_u29]
    rw [if_pos (show n / 128 % 2 = 0 by omega)]
    simp only [Option.some.injEq, Prod.mk.injEq]
    exact ⟨by omega, trivial⟩
  · rw [if_neg h1]
    by_cases h2 : n < 0x4000
    · rw [if_pos h2]
      simp only [List.cons_append, List.nil_append, read_u29]
      rw [if_neg (show ¬((0x80 + n / 0x80) / 128 % 2 = 0) by omega),
          if_pos (show (n % 0x80) / 128 % 2 = 0 by omega)]
      simp only [Option.some.injEq, Prod.mk.injEq]
      exact ⟨by omega, trivial⟩
    · rw [if_neg h2]
      by_cases h3 : n < 0x200000
      · rw [if_pos h3]
        simp only [List.cons_append, List.nil_append, read_u29]
        rw [if_neg (show ¬((0x80 + n / 0x4000) / 128 % 2 = 0) by omega),
            if_neg (show ¬((0x80 + n / 0x80 % 0x80) / 128 % 2 = 0) by omega),
            if_pos (show (n % 0x80) / 128 % 2 = 0 by omega)]
        simp only [Option.some.injEq, Prod.mk.injEq]
        exact ⟨by omega, trivial⟩
      · rw [if_neg h3]
        simp only [List.cons_append, List.nil_append, read_u29]
        rw [if_neg (show ¬((0x80 + n / 0x400000) / 128 % 2 = 0) by omega),
            if_neg (show ¬((0x80 + n / 0x8000 % 0x80) / 128 % 2 = 0) by omega),
            if_neg (show ¬((0x80 + n / 0x100 % 0x80) / 128 % 2 = 0) by omega)]
        simp only [Option.some.injEq, Prod.mk.injEq]
        exact ⟨by omega, trivial⟩

theorem read_u29_lt (data : List Nat) (hb : ∀ b ∈ data, b < 256)
    (v : Nat) (rest : List Nat) (h : read_u29 data = some (v, rest)) :
    v < 2 ^ 29 := by
  cases data with
  | nil => simp [read_u29] at h
  | cons b0 r0 =>
    simp only [read_u29] at h
    by_cases c0 : b0 / 128 % 2 = 0
    · rw [if_pos c0] at h
      simp only [Option.some.injEq, Prod.mk.injEq] at h
      omega
    · rw [if_neg c0] at h
      cases r0 with
      | nil => simp at h
      | cons b1 r1 =>
        dsimp only at h
        by_cases c1 : b1 / 128 % 2 = 0
        · rw [if_pos c1] at h
          simp only [Option.some.injEq, Prod.mk.injEq] at h
          omega
        · rw [if_neg c1] at h
          cases r1 with
          | nil => simp at h
          | cons b2 r2 =>
            dsimp only at h
            by_cases c2 : b2 / 128 % 2 = 0
            · rw [if_pos c2] at h
              simp only [Option.some.injEq, Prod.mk.injEq] at h
              omega
            · rw [if_neg c2] at h
              cases r2 with
              | nil => simp at h
              | cons b3 r3 =>
                dsimp only at h
                simp only [Option.some.injEq, Prod.mk.injEq] at h
                have hb3 : b3 < 256 := hb b3 (by simp)
                omega

/-! ### Non-emptiness of decoded text -/

theorem utf8Tail2_ne_nil {b : Nat} {l : List Nat} {cs : List Char}
    (h : utf8Tail2 b l = some cs) : cs ≠ [] := by
  cases l with
  | nil => rw [utf8Tail2] at h; exact Option.noConfusion h
  | cons c1 r =>
    rw [utf8Tail2] at h
    by_cases hc : 0x80 ≤ c1 ∧ c1 < 0xC0
    · rw [if_pos hc] at h
      simp only [Option.map_eq_some'] at h
      obtain ⟨cs2, _, he⟩ := h
      rw [← he]
      simp
    · rw [if_neg hc] at h
      exact Option.noConfusion h

theorem utf8Tail3_ne_nil {b : Nat} {l : List Nat} {cs : List Char}
    (h : utf8Tail3 b l = some cs) : cs ≠ [] := by
  rcases l with _ | ⟨c1, _ | ⟨c2, r⟩⟩
  · simp [utf8Tail3] at h
  · simp [utf8Tail3] at h
  · rw [utf8Tail3] at h
    by_cases hc : ((if b = 0xE0 then 0xA0 else 0x80) ≤ c1 ∧
        c1 < (if b = 0xED then 0xA0 else 0xC0)) ∧ (0x80 ≤ c2 ∧ c2 < 0xC0)
    · rw [if_pos hc] at h
      simp only [Option.map_eq_some'] at h
      obtain ⟨cs2, _, he⟩ := h
      rw [← he]
      simp
    · rw [if_neg hc] at h
      exact Option.noConfusion h

theorem utf8Tail4_ne_nil {b : Nat} {l : List Nat} {cs : List Char}
    (h : utf8Tail4 b l = some cs) : cs ≠ [] := by
  rcases l with _ | ⟨c1, _ | ⟨c2, _ | ⟨c3, r⟩⟩⟩
  · simp [utf8Tail4] at h
  · simp [utf8Tail4] at h
  · simp [utf8Tail4] at h
  · rw [utf8Tail4] at h
    by_cases hc : ((if b = 0xF0 then 0x90 else 0x80) ≤ c1 ∧
        c1 < (if b = 0xF4 then 0x90 else 0xC0)) ∧
        (0x80 ≤ c2 ∧ c2 < 0xC0) ∧ (0x80 ≤ c3 ∧ c3 < 0xC0)
    · rw [if_pos hc] at h
      simp only [Option.map_eq_some'] at h
      obtain ⟨cs2, _, he⟩ := h
      rw [← he]
      simp
    · rw [if_neg hc] at h
      exact Option.noConfusion h

theorem utf8Decode_ne_nil {b : Nat} {rest : List Nat} {cs : List Char}
    (h : utf8Decode (b :: rest) = some cs) : cs ≠ [] := by
  rw [utf8Decode] at h
  by_cases c1 : b < 0x80
  · rw [if_pos c1] at h
    simp only [Option.map_eq_some'] at h
    obtain ⟨cs2, _, he⟩ := h
    rw [← he]
    simp
  · rw [if_neg c1] at h
    by_cases c2 : b < 0xC2
    · rw [if_pos c2] at h
      exact Option.noConfusion h
    · rw [if_neg c2] at h
      by_cases c3 : b < 0xE0
      · rw [if_pos c3] at h
        exact utf8Tail2_ne_nil h
      · rw [if_neg c3] at h
        by_cases c4 : b < 0xF0
        · rw [if_pos c4] at h
          exact utf8Tail3_ne_nil h
        · rw [if_neg c4] at h
          by_cases c5 : b < 0xF5
          · rw [if_pos c5] at h
            exact utf8Tail4_ne_nil h
          · rw [if_neg c5] at h
            exact Option.noConfusion h

theorem pyDecodeBytes_ne_empty {bs : List Nat} (hne : bs ≠ []) :
    pyDecodeBytes bs ≠ "" := by
  rw [pyDecodeBytes]
  cases hu : utf8Decode bs with
  | none =>
    intro hcon
    have hmap : bs.map Char.ofNat = [] := by
      have hd := congrArg String.data hcon
      simpa using hd
    exact hne (List.map_eq_nil_iff.mp hmap)
  | some cs =>
    rcases bs with _ | ⟨b, rest⟩
    · exact absurd rfl hne
    · have hcs := utf8Decode_ne_nil hu
      intro hcon
      have hd : cs = [] := by
        have hdd := congrArg String.data hcon
        simpa using hdd
      exact hcs hd

/-! ### The string table invariant -/

theorem read_u29_st_stringTable {st : RState} {u : Nat} {st1 : RState}
    (h : read_u29_st st = some (u, st1)) : st1.stringTable = st.stringTable := by
  simp only [read_u29_st, Option.map_eq_some'] at h
  obtain ⟨p, hp, he⟩ := h
  cases he
  rfl

theorem readBytes_stringTable {n : Nat} {st : RState} {bs : List Nat} {st1 : RState}
    (h : readBytes n st = some (bs, st1)) : st1.stringTable = st.stringTable := by
  simp only [readBytes] at h
  split at h
  · exact absurd h (by simp)
  · cases h
    rfl

theorem read_string_table {st : RState} {s : String} {st1 : RState}
    (h : read_string st = some (s, st1)) :
    st1.stringTable = st.stringTable ∨
      (st1.stringTable = st.stringTable ++ [s] ∧ s ≠ "") := by
  simp only [read_string] at h
  split at h
  · exact absurd h (by simp)
  · rename_i u29 st' hu
    have ht := read_u29_st_stringTable hu
    split at h
    · split at h
      · cases h
        exact Or.inl ht
      · exact absurd h (by simp)
    · split at h
      · cases h
        exact Or.inl ht
      · split at h
        · exact absurd h (by simp)
        · rename_i sb st2 hrb
          have ht2 := readBytes_stringTable hrb
          cases h
          by_cases hs : pyDecodeBytes sb = ""
          · left
            simp [ht2, ht, hs]
          · right
            constructor
            · simp [if_pos hs, ht2, ht, hs]
            · exact hs

theorem read_string_inv {st : RState} {s : String} {st1 : RState}
    (h : read_string st = some (s, st1)) (hi : StrInv st.stringTable) :
    StrInv st1.stringTable := by
  rcases read_string_table h with ht | ⟨ht, hs⟩
  · rw [ht]; exact hi
  · rw [ht]
    intro x hx
    rcases List.mem_append.1 hx with hx | hx
    · exact hi x hx
    · rcases List.mem_singleton.1 hx with rfl
      exact hs

theorem read_integer_st_stringTable {st : RState} {i : Int} {st1 : RState}
    (h : read_integer_st st = some (i, st1)) : st1.stringTable = st.stringTable := by
  simp only [read_integer_st, Option.map_eq_some'] at h
  obtain ⟨p, hp, he⟩ := h
  cases he
  rfl

theorem read_double_stringTable {st : RState} {bs : List Nat} {st1 : RState}
    (h : read_double st = some (bs, st1)) : st1.stringTable = st.stringTable :=
  readBytes_stringTable h

theorem read_xml_stringTable {st : RState} {v : Value} {st1 : RState}
    (h : read_xml st = some (v, st1)) : st1.stringTable = st.stringTable := by
  simp only [read_xml] at h
  split at h
  · exact absurd h (by simp)
  · rename_i u29 st' hu
    have ht := read_u29_st_stringTable hu
    split at h
    · split at h
      · cases h; exact ht
      · exact absurd h (by simp)
    · split at h
      · exact absurd h (by simp)
      · rename_i xb st2 hrb
        have ht2 := readBytes_stringTable hrb
        cases h
        simp [ht2, ht]

theorem read_date_stringTable {st : RState} {v : Value} {st1 : RState}
    (h : read_date st = some (v, st1)) : st1.stringTable = st.stringTable := by
  simp only [read_date] at h
  split at h
  · exact absurd h (by simp)
  · rename_i u29 st' hu
    have ht := read_u29_st_stringTable hu
    split at h
    · split at h
      · cases h; exact ht
      · exact absurd h (by simp)
    · split at h
      · exact absurd h (by simp)
      · rename_i bits st2 hrb
        have ht2 := read_double_stringTable hrb
        cases h
        simp [ht2, ht]

theorem read_byte_array_stringTable {st : RState} {v : Value} {st1 : RState}
    (h : read_byte_array st = some (v, st1)) : st1.stringTable = st.stringTable := by
  simp only [read_byte_array] at h
  split at h
  · exact absurd h (by simp)
  · rename_i u29 st' hu
    have ht := read_u29_st_stringTable hu
    split at h
    · split at h
      · cases h; exact ht
      · exact absurd h (by simp)
    · split at h
      · exact absurd h (by simp)
      · rename_i bd st2 hrb
        have ht2 := readBytes_stringTable hrb
        cases h
        simp [ht2, ht]

theorem readPropNames_inv : ∀ {n : Nat} {st : RState} {q : List String × RState},
    readPropNames n st = some q → StrInv st.stringTable → StrInv q.2.stringTable := by
  intro n
  induction n with
  | zero =>
    intro st q h hi
    simp only [readPropNames] at h
    cases h
    exact hi
  | succ m ih =>
    intro st q h hi
    simp only [readPropNames] at h
    split at h
    · exact absurd h (by simp)
    · rename_i s st1 hs
      simp only [Option.map_eq_some'] at h
      obtain ⟨p, hp, he⟩ := h
      cases he
      have hq := ih hp (read_string_inv hs hi)
      exact hq

theorem amf3_inv : ∀ fuel : Nat,
    (∀ st v st1, read_object fuel st = some (v, st1) →
      StrInv st.stringTable → StrInv st1.stringTable) ∧
    (∀ st v st1, read_array fuel st = some (v, st1) →
      StrInv st.stringTable → StrInv st1.stringTable) ∧
    (∀ st arr q, read_assoc fuel st arr = some q →
      StrInv st.stringTable → StrInv q.2.stringTable) ∧
    (∀ i c st arr q, read_dense fuel i c st arr = some q →
      StrInv st.stringTable → StrInv q.2.stringTable) ∧
    (∀ st v st1, read_generic_object fuel st = some (v, st1) →
      StrInv st.stringTable → StrInv st1.stringTable) ∧
    (∀ cd st v st1, read_traits fuel cd st = some (v, st1) →
      StrInv st.stringTable → StrInv st1.stringTable) ∧
    (∀ ps st obj q, read_props fuel ps st obj = some q →
      StrInv st.stringTable → StrInv q.2.stringTable) ∧
    (∀ st obj q, read_dyn fuel st obj = some q →
      StrInv st.stringTable → StrInv q.2.stringTable) := by
  intro fuel
  induction fuel with
  | zero =>
    refine ⟨?_, ?_, ?_, ?_, ?_, ?_, ?_, ?_⟩
    · intro st v st1 h _; rw [read_object] at h; exact Option.noConfusion h
    · intro st v st1 h _; rw [read_array] at h; exact Option.noConfusion h
    · intro st arr q h _; rw [read_assoc] at h; exact Option.noConfusion h
    · intro i c st arr q h _; rw [read_dense] at h; exact Option.noConfusion h
    · intro st v st1 h _; rw [read_generic_object] at h; exact Option.noConfusion h
    · intro cd st v st1 h _; rw [read_traits] at h; exact Option.noConfusion h
    · intro ps st obj q h _; rw [read_props] at h; exact Option.noConfusion h
    · intro st obj q h _; rw [read_dyn] at h; exact Option.noConfusion h
  | succ n ih =>
    obtain ⟨iho, iha, ihas, ihd, ihg, iht, ihp, ihdy⟩ := ih
    refine ⟨?_, ?_, ?_, ?_, ?_, ?_, ?_, ?_⟩
    · -- read_object
      intro st v st1 h hinv
      rw [read_object] at h
      cases hst : st.stream with
      | nil => rw [hst] at h; exact Option.noConfusion h
      | cons marker s =>
        rw [hst] at h
        dsimp only at h
        by_cases c1 : marker = AMF3_UNDEFINED
        · rw [if_pos c1] at h; cases h; exact hinv
        · rw [if_neg c1] at h
          by_cases c2 : marker = AMF3_NULL
          · rw [if_pos c2] at h; cases h; exact hinv
          · rw [if_neg c2] at h
            by_cases c3 : marker = AMF3_FALSE
            · rw [if_pos c3] at h; cases h; exact hinv
            · rw [if_neg c3] at h
              by_cases c4 : marker = AMF3_TRUE
              · rw [if_pos c4] at h; cases h; exact hinv
              · rw [if_neg c4] at h
                by_cases c5 : marker = AMF3_INTEGER
                · rw [if_pos c5] at h
                  simp only [Option.map_eq_some'] at h
                  obtain ⟨p, hp, he⟩ := h
                  cases he
                  rw [read_integer_st_stringTable hp]
                  exact hinv
                · rw [if_neg c5] at h
                  by_cases c6 : marker = AMF3_DOUBLE
                  · rw [if_pos c6] at h
                    simp only [Option.map_eq_some'] at h
                    obtain ⟨p, hp, he⟩ := h
                    cases he
                    rw [read_double_stringTable hp]
                    exact hinv
                  · rw [if_neg c6] at h
                    by_cases c7 : marker = AMF3_STRING
                    · rw [if_pos c7] at h
                      simp only [Option.map_eq_some'] at h
                      obtain ⟨p, hp, he⟩ := h
                      cases he
                      exact read_string_inv hp hinv
                    · rw [if_neg c7] at h
                      by_cases c8 : marker = AMF3_XML_DOC ∨ marker = AMF3_XML
                      · rw [if_pos c8] at h
                        rw [read_xml_stringTable h]
                        exact hinv
                      · rw [if_neg c8] at h
                        by_cases c9 : marker = AMF3_DATE
                        · rw [if_pos c9] at h
                          rw [read_date_stringTable h]
                          exact hinv
                        · rw [if_neg c9] at h
                          by_cases c10 : marker = AMF3_ARRAY
                          · rw [if_pos c10] at h
                            exact iha _ _ _ h hinv
                          · rw [if_neg c10] at h
                            by_cases c11 : marker = AMF3_OBJECT
                            · rw [if_pos c11] at h
                              exact ihg _ _ _ h hinv
                            · rw [if_neg c11] at h
                              by_cases c12 : marker = AMF3_BYTE_ARRAY
                              · rw [if_pos c12] at h
                                rw [read_byte_array_stringTable h]
                                exact hinv
                              · rw [if_neg c12] at h
                                exact Option.noConfusion h
    · -- read_array
      intro st v st1 h hinv
      rw [read_array] at h
      cases hu : read_u29_st st with
      | none => rw [hu] at h; exact Option.noConfusion h
      | some p =>
        obtain ⟨u29, st'⟩ := p
        have ht := read_u29_st_stringTable hu
        rw [hu] at h
        dsimp only at h
        by_cases ce : u29 % 2 = 0
        · rw [if_pos ce] at h
          by_cases cr : u29 / 2 < st'.objectTable.length
          · rw [dif_pos cr] at h
            cases h
            rw [ht]; exact hinv
          · rw [dif_neg cr] at h
            exact Option.noConfusion h
        · rw [if_neg ce] at h
          cases hassoc : read_assoc n
              { st' with objectTable := st'.objectTable ++ [Value.arr []] }
              (Sum.inl []) with
          | none => rw [hassoc] at h; exact Option.noConfusion h
          | some q1 =>
            obtain ⟨arr1, st3⟩ := q1
            rw [hassoc] at h
            dsimp only at h
            cases hdense : read_dense n 0 (u29 / 2) st3 arr1 with
            | none => rw [hdense] at h; exact Option.noConfusion h
            | some q2 =>
              obtain ⟨arr2, st4⟩ := q2
              rw [hdense] at h
              dsimp only at h
              cases h
              have hinv2 : StrInv st3.stringTable := by
                have hh := ihas _ _ _ hassoc
                rw [ht] at hh
                exact hh hinv
              exact ihd _ _ _ _ _ hdense hinv2
    · -- read_assoc
      intro st arr q h hinv
      rw [read_assoc] at h
      cases hs : read_string st with
      | none => rw [hs] at h; exact Option.noConfusion h
      | some p =>
        obtain ⟨key, st1⟩ := p
        have hinv1 := read_string_inv hs hinv
        rw [hs] at h
        dsimp only at h
        by_cases ck : key = ""
        · rw [if_pos ck] at h
          cases h
          exact hinv1
        · rw [if_neg ck] at h
          cases hobj : read_object n st1 with
          | none => rw [hobj] at h; exact Option.noConfusion h
          | some p2 =>
            obtain ⟨value, st2⟩ := p2
            rw [hobj] at h
            dsimp only at h
            have hinv2 := iho _ _ _ hobj hinv1
            cases arr with
            | inl l =>
              dsimp only at h
              exact ihas _ _ _ h hinv2
            | inr d =>
              dsimp only at h
              exact ihas _ _ _ h hinv2
    · -- read_dense
      intro i c st arr q h hinv
      cases c with
      | zero =>
        rw [read_dense] at h
        cases h
        exact hinv
      | succ m =>
        rw [read_dense] at h
        cases hobj : read_object n st with
        | none => rw [hobj] at h; exact Option.noConfusion h
        | some p =>
          obtain ⟨v, st1⟩ := p
          rw [hobj] at h
          dsimp only at h
          have hinv1 := iho _ _ _ hobj hinv
          cases arr with
          | inl l =>
            dsimp only at h
            exact ihd _ _ _ _ _ h hinv1
          | inr d =>
            dsimp only at h
            exact ihd _ _ _ _ _ h hinv1
    · -- read_generic_object
      intro st v st1 h hinv
      rw [read_generic_object] at h
      cases hu : read_u29_st st with
      | none => rw [hu] at h; exact Option.noConfusion h
      | some p =>
        obtain ⟨u29, st'⟩ := p
        have ht := read_u29_st_stringTable hu
        rw [hu] at h
        dsimp only at h
        by_cases ce : u29 % 2 = 0
        · rw [if_pos ce] at h
          by_cases cr : u29 / 2 < st'.objectTable.length
          · rw [dif_pos cr] at h
            cases h
            rw [ht]; exact hinv
          · rw [dif_neg cr] at h
            exact Option.noConfusion h
        · rw [if_neg ce] at h
          by_cases cc : u29 / 2 % 2 = 0
          · rw [if_pos cc] at h
            by_cases cr : u29 / 4 <
                ({ st' with objectTable := st'.objectTable ++ [Value.dict []] } :
                  RState).classTable.length
            · rw [dif_pos cr] at h
              have hh := iht _ _ _ _ h
              rw [ht] at hh
              exact hh hinv
            · rw [dif_neg cr] at h
              exact Option.noConfusion h
          · rw [if_neg cc] at h
            cases hcn : read_string
                { st' with objectTable := st'.objectTable ++ [Value.dict []] } with
            | none => rw [hcn] at h; exact Option.noConfusion h
            | some p2 =>
              obtain ⟨className, st3⟩ := p2
              rw [hcn] at h
              dsimp only at h
              have hinv3 : StrInv st3.stringTable := by
                have hh := read_string_inv hcn
                rw [ht] at hh
                exact hh hinv
              by_cases cx : u29 / 4 % 2 = 1
              · rw [if_pos cx] at h
                exact Option.noConfusion h
              · rw [if_neg cx] at h
                cases hpn : readPropNames (u29 / 16) st3 with
                | none => rw [hpn] at h; exact Option.noConfusion h
                | some p3 =>
                  obtain ⟨props, st4⟩ := p3
                  rw [hpn] at h
                  dsimp only at h
                  have hinv4 := readPropNames_inv hpn hinv3
                  exact iht _ _ _ _ h hinv4
    · -- read_traits
      intro cd st v st1 h hinv
      rw [read_traits] at h
      cases hprops : read_props n cd.properties st
          (if cd.className ≠ "" then [("__class__", Value.str cd.className)]
           else []) with
      | none => rw [hprops] at h; exact Option.noConfusion h
      | some p =>
        obtain ⟨obj1, st2⟩ := p
        rw [hprops] at h
        dsimp only at h
        have hinv2 := ihp _ _ _ _ hprops hinv
        by_cases cdyn : cd.dynamic
        · rw [if_pos cdyn] at h
          cases hdyn : read_dyn n st2 obj1 with
          | none => rw [hdyn] at h; exact Option.noConfusion h
          | some p2 =>
            obtain ⟨obj2, st3⟩ := p2
            rw [hdyn] at h
            dsimp only at h
            cases h
            exact ihdy _ _ _ hdyn hinv2
        · rw [if_neg cdyn] at h
          cases h
          exact hinv2
    · -- read_props
      intro ps st obj q h hinv
      cases ps with
      | nil =>
        rw [read_props] at h
        cases h
        exact hinv
      | cons p rest =>
        rw [read_props] at h
        cases hobj : read_object n st with
        | none => rw [hobj] at h; exact Option.noConfusion h
        | some p2 =>
          obtain ⟨v, st1⟩ := p2
          rw [hobj] at h
          dsimp only at h
          exact ihp _ _ _ _ h (iho _ _ _ hobj hinv)
    · -- read_dyn
      intro st obj q h hinv
      rw [read_dyn] at h
      cases hs : read_string st with
      | none => rw [hs] at h; exact Option.noConfusion h
      | some p =>
        obtain ⟨key, st1⟩ := p
        have hinv1 := read_string_inv hs hinv
        rw [hs] at h
        dsimp only at h
        by_cases ck : key = ""
        · rw [if_pos ck] at h
          cases h
          exact hinv1
        · rw [if_neg ck] at h
          cases hobj : read_object n st1 with
          | none => rw [hobj] at h; exact Option.noConfusion h
          | some p2 =>
            obtain ⟨v, st2⟩ := p2
            rw [hobj] at h
            dsimp only at h
            exact ihdy _ _ _ h (iho _ _ _ hobj hinv1)

/-! ### Inline string followed by a reference -/

theorem read_string_inline (st : RState) (bs rest : List Nat)
    (hne : bs ≠ []) (hlen : bs.length < 2 ^ 28)
    (hstream : st.stream = encode_u29 (2 * bs.length + 1) ++ (bs ++ rest)) :
    read_string st = some (pyDecodeBytes bs,
      { st with stream := rest,
                stringTable := st.stringTable ++ [pyDecodeBytes bs] }) := by
  have hL : 0 < bs.length := List.length_pos.mpr hne
  have hs : pyDecodeBytes bs ≠ "" := pyDecodeBytes_ne_empty hne
  have hdiv : (2 * bs.length + 1) / 2 = bs.length := by omega
  simp only [read_string, read_u29_st, hstream,
    read_u29_encode_append (2 * bs.length + 1) (by omega) (bs ++ rest),
    Option.map_some']
  rw [if_neg (by omega)]
  rw [hdiv]
  rw [if_neg (by omega)]
  simp only [readBytes, List.length_append]
  rw [if_neg (by omega)]
  rw [List.take_left, List.drop_left]
  dsimp only
  rw [if_pos hs]

theorem read_string_ref (st : RState) (k : Nat) (rest : List Nat)
    (hk : k < st.stringTable.length) (hk2 : k < 2 ^ 28)
    (hstream : st.stream = encode_u29 (2 * k) ++ rest) :
    read_string st = some (st.stringTable.get ⟨k, hk⟩,
      { st with stream := rest }) := by
  have hdiv : 2 * k / 2 = k := by omega
  simp only [read_string, read_u29_st, hstream,
    read_u29_encode_append (2 * k) (by omega) rest, Option.map_some']
  rw [if_pos (by omega)]
  dsimp only
  simp only [hdiv]
  rw [dif_pos hk]

theorem read_string_inline_then_ref (st : RState) (bs tail : List Nat)
    (hne : bs ≠ []) (hlen : bs.length < 2 ^ 28)
    (hklen : st.stringTable.length < 2 ^ 28)
    (hstream : st.stream =
      encode_u29 (2 * bs.length + 1) ++ bs ++
        encode_u29 (2 * st.stringTable.length) ++ tail) :
    ∃ st1 st2, read_string st = some (pyDecodeBytes bs, st1) ∧
      read_string st1 = some (pyDecodeBytes bs, st2) := by
  have hstream2 : st.stream =
      encode_u29 (2 * bs.length + 1) ++
        (bs ++ (encode_u29 (2 * st.stringTable.length) ++ tail)) := by
    simpa [List.append_assoc] using hstream
  have h1 := read_string_inline st bs
    (encode_u29 (2 * st.stringTable.length) ++ tail) hne hlen hstream2
  have hk : st.stringTable.length <
      (st.stringTable ++ [pyDecodeBytes bs]).length := by simp
  have h2 := read_string_ref
    { st with stream := encode_u29 (2 * st.stringTable.length) ++ tail,
              stringTable := st.stringTable ++ [pyDecodeBytes bs] }
    st.stringTable.length tail hk hklen rfl
  dsimp only at h2
  have hget : (st.stringTable ++ [pyDecodeBytes bs]).get
      ⟨st.stringTable.length, hk⟩ = pyDecodeBytes bs := by simp
  rw [hget] at h2
  exact ⟨_, _, h1, h2⟩

/-! ### ExportAssets entries -/

theorem assocInsert_mem {α β : Type} [DecidableEq α] :
    ∀ {l : List (α × β)} {k : α} {v : β} {p : α × β},
      p ∈ assocInsert l k v → p ∈ l ∨ p = (k, v) := by
  intro l
  induction l with
  | nil =>
    intro k v p hp
    simp [assocInsert] at hp
    exact Or.inr hp
  | cons hd t ih =>
    intro k v p hp
    obtain ⟨k0, v0⟩ := hd
    rw [assocInsert] at hp
    by_cases hk : k0 = k
    · rw [if_pos hk] at hp
      rcases List.mem_cons.1 hp with hh | hh
      · subst hk
        exact Or.inr hh
      · exact Or.inl (List.mem_cons_of_mem _ hh)
    · rw [if_neg hk] at hp
      rcases List.mem_cons.1 hp with hh | hh
      · exact Or.inl (by simp [hh])
      · rcases ih hh with h1 | h1
        · exact Or.inl (List.mem_cons_of_mem _ h1)
        · exact Or.inr h1

theorem exportEntriesGo_nonempty :
    ∀ (n : Nat) (rem : List Nat) (acc : List (Nat × String)),
      (∀ p ∈ acc, p.2 ≠ "") → ∀ p ∈ exportEntriesGo n rem acc, p.2 ≠ "" := by
  intro n
  induction n with
  | zero =>
    intro rem acc hacc p hp
    rw [exportEntriesGo] at hp
    exact hacc p hp
  | succ m ih =>
    intro rem acc hacc p hp
    rcases rem with _ | ⟨c0, _ | ⟨c1, rest⟩⟩
    · rw [exportEntriesGo] at hp
      exact hacc p hp
    · rw [exportEntriesGo] at hp
      exact hacc p hp
    · rw [exportEntriesGo] at hp
      refine ih _ _ ?_ p hp
      intro q hq
      by_cases hs : pyDecodeBytes (collectName rest).1 ≠ ""
      · rw [if_pos hs] at hq
        rcases assocInsert_mem hq with h1 | h1
        · exact hacc q h1
        · rw [h1]
          exact hs
      · rw [if_neg hs] at hq
        exact hacc q hq

/-! ## Claims -/

/-- C1 (amended): for every input, `read_amf3_object` returns a value and
never raises.  It first attempts a direct AMF3 decode; if that fails and
the first two bytes equal the zlib best-compression marker `78 DA` it
attempts inflate-then-decode; otherwise, or when that also fails, it
returns the original bytes unchanged. -/
theorem c1_fallback_marker_gated
    (inflate : List Nat → Option (List Nat)) (data : List Nat) :
    (∃ v, read_amf3 data = some v ∧ read_amf3_object inflate data = v) ∨
    (read_amf3 data = none ∧ data.take 2 = [0x78, 0xDA] ∧
      ∃ v, (inflate data).bind read_amf3 = some v ∧
        read_amf3_object inflate data = v) ∨
    (read_amf3 data = none ∧
      read_amf3_object inflate data = Value.bytes data) := by
  cases hm : read_amf3 data with
  | some v =>
    exact Or.inl ⟨v, rfl, by simp only [read_amf3_object, hm]⟩
  | none =>
    by_cases hz : data.take 2 = [0x78, 0xDA]
    · cases hb : (inflate data).bind read_amf3 with
      | some v =>
        exact Or.inr (Or.inl ⟨rfl, hz, v, rfl,
          by simp only [read_amf3_object, hm, if_pos hz, hb]⟩)
      | none =>
        exact Or.inr (Or.inr ⟨rfl,
          by simp only [read_amf3_object, hm, if_pos hz, hb]⟩)
    · exact Or.inr (Or.inr ⟨rfl,
        by simp only [read_amf3_object, hm, if_neg hz]⟩)

/-- C1 counterexample: on a genuine zlib stream whose header is `78 01`
(not `78 DA`), direct decoding fails and inflate-then-decode would succeed
(yielding null), yet `read_amf3_object` returns the raw bytes: the claimed
unconditional inflate fallback does not match the code, which gates the
fallback on the `78 DA` marker. -/
theorem c1_zlib_fallback_counterexample :
    read_amf3 zlibStored = none ∧
    (inflateStored zlibStored).bind read_amf3 = some Value.null ∧
    read_amf3_object inflateStored zlibStored = Value.bytes zlibStored ∧
    read_amf3_object_claimed inflateStored zlibStored = Value.null ∧
    Value.bytes zlibStored ≠ Value.null :=
  ⟨rfl, rfl, rfl, rfl, fun h => Value.noConfusion h⟩

/-- C2: decoding the 1-to-4-byte U29 encoding of any `n` below `2 ^ 29`
with `read_u29` yields exactly `n`, and on any byte stream `read_u29`
never returns a value above `2 ^ 29 - 1`. -/
theorem c2_u29_roundtrip_and_range :
    (∀ n : Nat, n < 2 ^ 29 → read_u29 (encode_u29 n) = some (n, [])) ∧
    (∀ data v rest, (∀ b ∈ data, b < 256) → read_u29 data = some (v, rest) →
      v ≤ 2 ^ 29 - 1) := by
  constructor
  · intro n hn
    have h := read_u29_encode_append n hn []
    simpa using h
  · intro data v rest hb h
    have hlt := read_u29_lt data hb v rest h
    omega

/-- C2 witness: the round trip at 300 and the range bound on a concrete
2-byte stream. -/
theorem c2_u29_witness :
    read_u29 (encode_u29 300) = some (300, []) ∧ (655 : Nat) ≤ 2 ^ 29 - 1 :=
  ⟨c2_u29_roundtrip_and_range.1 300 (by decide),
   c2_u29_roundtrip_and_range.2 [0x85, 0x0F] 655 [] (by decide) (by decide)⟩

/-- C3: `read_integer` reads a U29 and, whenever the raw value exceeds
0x0FFFFFFF, returns the raw value minus 0x20000000, which is the unique
value in `[-2 ^ 28, 2 ^ 28)` congruent to the raw value modulo `2 ^ 29`;
and for every integer in `[-2 ^ 28, 2 ^ 28)` encode-then-decode
round-trips exactly (the boundary raw values 0x0FFFFFFF and 0x10000000 are
instances of the two branches). -/
theorem c3_integer_twos_complement :
    (∀ data u rest, read_u29 data = some (u, rest) → 0x0FFFFFFF < u →
      u < 2 ^ 29 →
      read_integer data = some ((u : Int) - 0x20000000, rest) ∧
      -(2 ^ 28) ≤ (u : Int) - 0x20000000 ∧ (u : Int) - 0x20000000 < 2 ^ 28 ∧
      ((u : Int) - 0x20000000) % 2 ^ 29 = (u : Int)) ∧
    (∀ i : Int, -(2 ^ 28) ≤ i → i < 2 ^ 28 →
      read_integer (encode_amf3_integer i) = some (i, [])) := by
  constructor
  · intro data u rest h hgt hlt
    refine ⟨?_, by omega, by omega, by omega⟩
    simp only [read_integer, h, Option.map_some']
    rw [if_pos hgt]
  · intro i h1 h2
    have hn0 : (0 : Int) ≤ i % 0x20000000 := Int.emod_nonneg i (by norm_num)
    have hn1 : i % (0x20000000 : Int) < 0x20000000 :=
      Int.emod_lt_of_pos i (by norm_num)
    have htn : ((i % (0x20000000 : Int)).toNat : Int) = i % 0x20000000 :=
      Int.toNat_of_nonneg hn0
    have hlt : (i % (0x20000000 : Int)).toNat < 2 ^ 29 := by omega
    have h29 := read_u29_encode_append (i % (0x20000000 : Int)).toNat hlt []
    rw [List.append_nil] at h29
    rw [encode_amf3_integer]
    simp only [read_integer, h29, Option.map_some']
    by_cases hc : 0x0FFFFFFF < (i % (0x20000000 : Int)).toNat
    · rw [if_pos hc]
      simp only [Option.some.injEq, Prod.mk.injEq]
      exact ⟨by omega, trivial⟩
    · rw [if_neg hc]
      simp only [Option.some.injEq, Prod.mk.injEq]
      exact ⟨by omega, trivial⟩

/-- C3 witness: round trip at -5, and the signed branch on the stream
encoding the raw value 0x1FFFFFFF (which decodes to -1). -/
theorem c3_integer_witness :
    read_integer (encode_amf3_integer (-5)) = some (-5, []) ∧
    read_integer [0xFF, 0xFF, 0xFF, 0xFF] =
      some ((0x1FFFFFFF : Int) - 0x20000000, []) :=
  ⟨c3_integer_twos_complement.2 (-5) (by norm_num) (by norm_num),
   (c3_integer_twos_complement.1 [0xFF, 0xFF, 0xFF, 0xFF] 0x1FFFFFFF []
     (by decide) (by decide) (by decide)).1⟩

set_option maxHeartbeats 1000000 in
/-- C4 evaluation: decoding an inline array with two associative entries
(`"a"` and `"b"`, both null-valued, empty dense section) binds only the
first key: the value of `"b"` is consumed from the stream but dropped,
because the assignment sits inside the list-to-dict conversion branch of
the source.  A dense-only array of declared length 3 does decode to an
ordered sequence of exactly 3 elements. -/
theorem c4_second_assoc_key_dropped :
    read_amf3 [0x09, 0x01, 0x03, 0x61, 0x01, 0x03, 0x62, 0x01, 0x01] =
      some (Value.dict [("a", Value.null)]) ∧
    read_amf3 [0x09, 0x07, 0x01, 0x01, 0x01, 0x01] =
      some (Value.arr [Value.null, Value.null, Value.null]) := ⟨rfl, rfl⟩

/-- C5 evaluation: in an uncompressed container, a standard end-of-stream
marker (tag type 0, zero length, bytes `00 00`) does not terminate the tag
loop, because the zero-length skip is checked before the end-tag test: the
type-1 tag after the marker is still collected.  A type-0 tag with a
non-zero payload does terminate, and zero-length tags of other types are
skipped without appearing in the result. -/
theorem c5_end_marker_not_terminating :
    extract_swf_data (fun _ => none)
      [0x46, 0x57, 0x53, 0x0E, 0x12, 0x00, 0x00, 0x00, 0x00, 0x00, 0x00,
       0x00, 0x00, 0x00, 0x00, 0x41, 0x00, 0xAA] =
      some [(1, [[0xAA]])] ∧
    extract_swf_data (fun _ => none)
      [0x46, 0x57, 0x53, 0x0E, 0x12, 0x00, 0x00, 0x00, 0x00, 0x00, 0x00,
       0x00, 0x00, 0x01, 0x00, 0xCC, 0x41, 0x00, 0xAA] =
      some [] ∧
    extract_swf_data (fun _ => none)
      [0x46, 0x57, 0x53, 0x0E, 0x12, 0x00, 0x00, 0x00, 0x00, 0x00, 0x00,
       0x00, 0x00, 0x80, 0x00, 0x41, 0x00, 0xAA] =
      some [(1, [[0xAA]])] := by
  refine ⟨by decide, by decide, by decide⟩

/-- C6: in the tag loop of `extract_swf_data`, a 2-byte header whose low 6
bits are the sentinel 0x3F is followed by a 4-byte little-endian extended
length that is used as the payload length, and exactly that many payload
bytes are read when available; in both header forms a declared length
beyond the remaining buffer is clamped to the remaining bytes and the tag
is still produced. -/
theorem c6_long_tag_and_clamp :
    (∀ b0 b1 l0 l1 l2 l3 : Nat, ∀ rest2 : List Nat,
      (b0 + 256 * b1) % 64 = 0x3F →
      readTag (b0 :: b1 :: l0 :: l1 :: l2 :: l3 :: rest2) =
        some ((b0 + 256 * b1) / 64,
          rest2.take
            (min (l0 + 256 * l1 + 65536 * l2 + 16777216 * l3) rest2.length),
          rest2.drop
            (min (l0 + 256 * l1 + 65536 * l2 + 16777216 * l3) rest2.length)) ∧
      (l0 + 256 * l1 + 65536 * l2 + 16777216 * l3 ≤ rest2.length →
        (rest2.take
          (min (l0 + 256 * l1 + 65536 * l2 + 16777216 * l3)
            rest2.length)).length =
          l0 + 256 * l1 + 65536 * l2 + 16777216 * l3) ∧
      (rest2.length < l0 + 256 * l1 + 65536 * l2 + 16777216 * l3 →
        rest2.take
          (min (l0 + 256 * l1 + 65536 * l2 + 16777216 * l3) rest2.length) =
          rest2)) ∧
    (∀ b0 b1 : Nat, ∀ rest : List Nat, (b0 + 256 * b1) % 64 ≠ 0x3F →
      readTag (b0 :: b1 :: rest) =
        some ((b0 + 256 * b1) / 64,
          rest.take (min ((b0 + 256 * b1) % 64) rest.length),
          rest.drop (min ((b0 + 256 * b1) % 64) rest.length)) ∧
      (rest.length < (b0 + 256 * b1) % 64 →
        rest.take (min ((b0 + 256 * b1) % 64) rest.length) = rest)) := by
  constructor
  · intro b0 b1 l0 l1 l2 l3 rest2 hs
    refine ⟨?_, ?_, ?_⟩
    · rw [readTag]
      dsimp only
      rw [if_pos hs, readTagLong]
    · intro hle
      simp only [List.length_take]
      omega
    · intro hgt
      rw [show min (l0 + 256 * l1 + 65536 * l2 + 16777216 * l3) rest2.length =
        rest2.length by omega, List.take_length]
  · intro b0 b1 rest hs
    refine ⟨?_, ?_⟩
    · rw [readTag]
      dsimp only
      rw [if_neg hs]
    · intro hgt
      rw [show min ((b0 + 256 * b1) % 64) rest.length = rest.length by omega,
        List.take_length]

/-- C6 witness: a long-format tag (header 0x007F, extended length 5)
over a buffer holding only 2 payload bytes is clamped to those 2 bytes. -/
theorem c6_tag_witness :
    readTag [0x7F, 0x00, 0x05, 0x00, 0x00, 0x00, 0xAA, 0xBB] =
      some (1, [0xAA, 0xBB], []) := by
  rw [(c6_long_tag_and_clamp.1 0x7F 0x00 0x05 0x00 0x00 0x00 [0xAA, 0xBB]
    (by decide)).1]
  decide

/-- C7 evaluation: the bounding box `0C 00` declares `nbits = 1` with
packed xmin field 1, so by the packed layout of the spec xmin decodes to
-1 (`rectFieldSpec`), but `parse_rect` returns 0 for every coordinate: its
mask keeps the low `4 * nbits` bits of the byte sequence without first
shifting out the padding bits, so all coordinates are read misaligned.
Byte consumption (`ceil((5 + 4 * nbits) / 8)` here 2) and the 1-byte
`nbits = 0` case match the claim. -/
theorem c7_rect_padding_misaligned :
    parse_rect [0x0C, 0x00] 0 = (some ⟨0, 0, 0, 0, 0, 0⟩, 2) ∧
    rectFieldSpec [0x0C, 0x00] 0 1 0 = -1 ∧
    parse_rect [0x00] 0 = (some ⟨0, 0, 0, 0, 0, 0⟩, 1) := by
  refine ⟨by decide, by decide, by decide⟩

/-- C9: `read_string` either leaves the string table unchanged or appends
exactly the non-empty string it returns (so on any decode starting from a
table of non-empty strings, every table stays free of empty strings:
`read_object` preserves the invariant for every fuel), and an inline
non-empty string followed by a reference-form U29 designating that entry
decodes to equal string values in both positions. -/
theorem c9_string_table_invariant :
    (∀ st s st1, read_string st = some (s, st1) →
      st1.stringTable = st.stringTable ∨
        (st1.stringTable = st.stringTable ++ [s] ∧ s ≠ "")) ∧
    (∀ fuel st v st1, read_object fuel st = some (v, st1) →
      StrInv st.stringTable → StrInv st1.stringTable) ∧
    (∀ st bs tail, bs ≠ [] → bs.length < 2 ^ 28 →
      st.stringTable.length < 2 ^ 28 →
      st.stream = encode_u29 (2 * bs.length + 1) ++ bs ++
        encode_u29 (2 * st.stringTable.length) ++ tail →
      ∃ st1 st2, read_string st = some (pyDecodeBytes bs, st1) ∧
        read_string st1 = some (pyDecodeBytes bs, st2)) :=
  ⟨fun _ _ _ h => read_string_table h,
   fun fuel _ _ _ h hi => (amf3_inv fuel).1 _ _ _ h hi,
   fun st bs tail h1 h2 h3 h4 => read_string_inline_then_ref st bs tail h1 h2 h3 h4⟩

/-- C9 witness: a table invariant instance after decoding the inline
string `"a"`, and the inline-then-reference round trip on the concrete
stream `03 61 00`. -/
theorem c9_string_table_witness :
    StrInv ["a"] ∧
    (∃ st1 st2, read_string (RState.init [0x03, 0x61, 0x00]) =
        some (pyDecodeBytes [0x61], st1) ∧
      read_string st1 = some (pyDecodeBytes [0x61], st2)) :=
  ⟨c9_string_table_invariant.2.1 2 (RState.init [0x06, 0x03, 0x61])
    (Value.str "a") ⟨[], ["a"], [], []⟩ rfl (by intro s hs; simp [RState.init] at hs),
   c9_string_table_invariant.2.2 (RState.init [0x03, 0x61, 0x00]) [0x61] []
    (by decide) (by decide) (by decide) (by decide)⟩

/-- C10: `read_export_asset_name` is a total function (truncation and
malformed payloads end the loop with the entries collected so far), and
every entry of its result has a non-empty symbol name; concretely, a
payload declaring 2 entries but truncated inside the second yields exactly
the first entry, and a payload truncated inside the first character id
yields no entries. -/
theorem c10_export_names_total :
    (∀ data : List Nat, ∀ p ∈ read_export_asset_name data, p.2 ≠ "") ∧
    read_export_asset_name
      [0x02, 0x00, 0x05, 0x00, 0x46, 0x6F, 0x6F, 0x00, 0x07, 0x00] =
      [(5, "Foo")] ∧
    read_export_asset_name [0x01, 0x00, 0x05] = [] := by
  refine ⟨?_, by decide, by decide⟩
  intro data p hp
  rcases data with _ | ⟨b0, _ | ⟨b1, rest⟩⟩
  · rw [read_export_asset_name] at hp
    simp at hp
  · rw [read_export_asset_name] at hp
    simp at hp
  · rw [read_export_asset_name] at hp
    exact exportEntriesGo_nonempty _ _ [] (by intro q hq; simp at hq) p hp

/-- C10 witness: the non-empty-name clause applied to the single parsed
entry of a concrete ExportAssets payload. -/
theorem c10_export_witness : ("Foo" : String) ≠ "" :=
  c10_export_names_total.1 [0x01, 0x00, 0x05, 0x00, 0x46, 0x6F, 0x6F, 0x00]
    (5, "Foo") (by decide)

end Swf
